import Mathlib

/-!
Shallow embedding of `src/tt.py` (a thread tracker for a remote imageboard).

Python strings are modelled as `List Char`; the JSON registry file as an
explicit `Registry` value threaded through the operations (load/save become
the input and output registry of each operation, with a `saveEv` event
recording each durable write); `time.time()` as an explicit `Int` timestamp
argument; the remote fetch as a `FetchOutcome` parameter describing what the
transport did (returned data, raised an HTTP error with a status code, or
raised some other exception); notifications and sleeps as trace events.
Python dicts (which preserve insertion order and have unique keys) are
modelled as association lists, inserting at the end and deleting/updating the
first occurrence of a key.
-/

namespace ThreadTracker

/-- Python strings, modelled as lists of characters. -/
abbrev Str := List Char

/-- If `lit` is a leading segment of `s`, return the remainder, else `none`.
Used to model the literal parts of the regular expression in
`parse_thread_url` and the `re.match` anchoring at the start of the string. -/
def dropLit : Str → Str → Option Str
  | [], s => some s
  | _ :: _, [] => none
  | a :: ls, b :: ss => if a = b then dropLit ls ss else none

/-- One post of a thread snapshot: `no` is the numeric post id, `sub` the
optional subject field, `com` the optional HTML body.  `none` models an
absent field; `some []` an empty string field (both are falsy in Python). -/
structure Post where
  no : Nat
  sub : Option Str
  com : Option Str
deriving DecidableEq

/-- A thread snapshot as returned by the remote API: the ordered posts. -/
structure ThreadData where
  posts : List Post
deriving DecidableEq

/-- What the transport layer underneath `fetch_thread_data` did:
delivered a snapshot, raised `urllib.error.HTTPError` with a status code, or
raised some other exception (e.g. `URLError` on a network failure, which is
caught by the generic `except Exception` clause in the source). -/
inductive FetchOutcome where
  | success (d : ThreadData)
  | httpError (code : Nat)
  | otherError
deriving DecidableEq

/-- One tracked-thread record, mirroring the JSON object built in
`add_thread` (`id`, `board`, `thread_id`, `title`, `last_post_no`,
`last_update`, `check_interval`, `added_time`). -/
structure ThreadRecord where
  id : Nat
  board : Str
  thread_id : Str
  title : Str
  last_post_no : Nat
  last_update : Int
  check_interval : Nat
  added_time : Int
deriving DecidableEq

/-- The persisted tracking data `{"threads": {...}, "next_id": n}`.
The dict is an association list from thread key to record, in insertion
order. -/
structure Registry where
  threads : List (Str × ThreadRecord)
  next_id : Nat
deriving DecidableEq

/-- Dict lookup: first entry with the given key. -/
def lookupKey (k : Str) : List (Str × ThreadRecord) → Option ThreadRecord
  | [] => none
  | kv :: rest => if kv.1 = k then some kv.2 else lookupKey k rest

/-- Dict deletion (`del d[k]`): removes the first entry with the given key. -/
def eraseKey (k : Str) : List (Str × ThreadRecord) → List (Str × ThreadRecord)
  | [] => []
  | kv :: rest => if kv.1 = k then rest else kv :: eraseKey k rest

/-- Dict update (`d[k] = v`): replaces the first entry with the given key in
place, or appends when the key is absent. -/
def setKey (k : Str) (v : ThreadRecord) : List (Str × ThreadRecord) → List (Str × ThreadRecord)
  | [] => [(k, v)]
  | kv :: rest => if kv.1 = k then (k, v) :: rest else kv :: setKey k v rest

/-- The composite dict key `f"{board}_{thread_id}"`. -/
def thread_key (board tid : Str) : Str := board ++ '_' :: tid

/-- Observable side effects of an operation, in order: a remote fetch, one
desktop notification (tagged with the number of the post that triggered it,
plus the delivered title and content), one durable write of the registry
(`save_tracking_data`), one `time.sleep`. -/
inductive Event where
  | fetchEv
  | notifyEv (postNo : Nat) (title content : Str)
  | saveEv (r : Registry)
  | sleepEv (seconds : Nat)
deriving DecidableEq

/-- `fetch_thread_data`, as a function of what the transport did.
`Except` models an exception propagating out of the function: an
`HTTPError` with status 404 is mapped to `none` ("thread doesn't exist or
was archived"), any other `HTTPError` is re-raised, and every other
exception is caught by the generic handler, printed, and mapped to `none`. -/
def fetch_thread_data (outcome : FetchOutcome) : Except Nat (Option ThreadData) :=
  match outcome with
  | .success d => .ok (some d)
  | .httpError code => if code = 404 then .ok none else .error code
  | .otherError => .ok none

/-- Helper for the termination of `stripHtml`. -/
theorem dropWhile_length_le (p : Char → Bool) : (l : Str) → (l.dropWhile p).length ≤ l.length
  | [] => Nat.le_refl _
  | a :: l => by
    rw [List.dropWhile_cons]
    split
    · exact Nat.le_succ_of_le (dropWhile_length_le p l)
    · exact Nat.le_refl _

/-- `re.sub` with pattern `<[^>]+>` and empty replacement: scanning left to
right, a `<` followed by at least one non-`>` character and then a `>` is
removed together with everything up to and including that first `>`;
scanning resumes after it.  A `<` that starts no such match is kept. -/
def stripHtml : Str → Str
  | [] => []
  | c :: rest =>
    if c = '<' ∧ rest.takeWhile (fun ch => ch ≠ '>') ≠ [] ∧
        rest.dropWhile (fun ch => ch ≠ '>') ≠ [] then
      stripHtml (rest.dropWhile (fun ch => ch ≠ '>')).tail
    else
      c :: stripHtml rest
termination_by s => s.length
decreasing_by
  · simp only [List.length_cons]
    have h1 : (rest.dropWhile (fun ch => decide (ch ≠ '>'))).length ≤ rest.length :=
      dropWhile_length_le _ rest
    have h2 : ((rest.dropWhile (fun ch => decide (ch ≠ '>'))).tail).length ≤
        (rest.dropWhile (fun ch => decide (ch ≠ '>'))).length := by
      rw [List.length_tail]; exact Nat.sub_le _ _
    omega
  · simp only [List.length_cons]; omega

/-- The ellipsis marker `"..."` appended by the truncations in the source. -/
def ellipsis : Str := ['.', '.', '.']

/-- Fallback title text `"Unknown Thread"`. -/
def unknownThread : Str := "Unknown Thread".toList

/-- Default used to model `posts[0]` / `posts[-1]`; the Python code would
raise `IndexError` on an empty post list, a case outside every claim (the
remote API returns at least the original post). -/
def defaultPost : Post := ⟨0, none, none⟩

/-- Truthiness of an optional string field: present and non-empty. -/
def optNonempty : Option Str → Bool
  | some s => !s.isEmpty
  | none => false

/-- `get_thread_title`: subject of the first post if present and non-empty;
else the HTML-stripped body, truncated to its first 50 characters plus an
ellipsis when longer than 50; else `f"Thread {no}"`. -/
def get_thread_title (thread_data : Option ThreadData) : Str :=
  match thread_data with
  | none => unknownThread
  | some d =>
    let first_post := d.posts.headD defaultPost
    if optNonempty first_post.sub then first_post.sub.getD []
    else if optNonempty first_post.com then
      let comment := stripHtml (first_post.com.getD [])
      if comment.length > 50 then comment.take 50 ++ ellipsis else comment
    else "Thread ".toList ++ (toString first_post.no).toList

/-- The `'No content'` default of `post.get('com', 'No content')`. -/
def noContent : Str := "No content".toList

/-- `send_notification`, reduced to the pure payload it hands to
`notify-send`: the title `f"/{board}/ - {thread_id}"` and the body with HTML
stripped and truncated to 200 characters plus an ellipsis when longer. -/
def send_notification_payload (board tid : Str) (post_content : Str) : Str × Str :=
  let title := '/' :: board ++ '/' :: ' ' :: '-' :: ' ' :: tid
  let content := stripHtml post_content
  let content := if content.length > 200 then content.take 200 ++ ellipsis else content
  (title, content)

/-- The literal head of the URL pattern in `parse_thread_url`. -/
def urlLit : Str := "https://boards.4chan.org/".toList

/-- The literal middle segment of the URL pattern. -/
def midLit : Str := "/thread/".toList

/-- `parse_thread_url`: `re.match` with the pattern
`https://boards\.4chan\.org/([^/]+)/thread/(\d+)`.  `re.match` anchors only
at the start of the string, so any trailing text is ignored.  The compiled
form below is equivalent to the regex: the greedy `([^/]+)` must stop at the
first `/` (a shorter match would put a non-`/` character where `/thread/`
needs a `/`), and the greedy `(\d+)` takes the maximal digit run.  `.error`
models the raised `ValueError` (`InvalidReference`). -/
def parse_thread_url (url : Str) : Except Unit (Str × Str) :=
  match dropLit urlLit url with
  | none => .error ()
  | some t =>
    let b := t.takeWhile (fun c => c ≠ '/')
    if b = [] then .error ()
    else
      match dropLit midLit (t.dropWhile (fun c => c ≠ '/')) with
      | none => .error ()
      | some v =>
        let d := v.takeWhile Char.isDigit
        if d = [] then .error () else .ok (b, d)

/-- Result of `add_thread`: the registry as durably stored when the call
returns, the side effects in order, the tracking id it assigned (if any),
and the status code of a propagated `HTTPError` (if the fetch re-raised). -/
structure AddResult where
  data : Registry
  events : List Event
  assignedId : Option Nat
  raised : Option Nat
deriving DecidableEq

/-- `add_thread`: a no-op when the composite key is already tracked (no
fetch, no save); otherwise fetches once, gives up without mutation when the
fetch yields no data, and otherwise inserts a new record under
`tracking_id = next_id`, increments `next_id` and saves. -/
def add_thread (board tid : Str) (check_interval : Nat) (data : Registry)
    (fetch : FetchOutcome) (now : Int) : AddResult :=
  let key := thread_key board tid
  if (lookupKey key data.threads).isSome then
    ⟨data, [], none, none⟩
  else
    match fetch_thread_data fetch with
    | .error c => ⟨data, [.fetchEv], none, some c⟩
    | .ok none => ⟨data, [.fetchEv], none, none⟩
    | .ok (some td) =>
      let last_post_no := (td.posts.getLastD defaultPost).no
      let thread_title := get_thread_title (some td)
      let tracking_id := data.next_id
      let rec1 : ThreadRecord :=
        ⟨tracking_id, board, tid, thread_title, last_post_no, now, check_interval, now⟩
      let data1 : Registry := ⟨data.threads ++ [(key, rec1)], data.next_id + 1⟩
      ⟨data1, [.fetchEv, .saveEv data1], some tracking_id, none⟩

/-- Result of `remove_thread` / `cleanup_old_threads` style mutations: the
registry as durably stored when the call returns and the events. -/
structure RemoveResult where
  data : Registry
  events : List Event
deriving DecidableEq

/-- `remove_thread`: finds the first record whose `id` equals the tracking
id (search by value); absent id or a declined interactive confirmation
(`confirm` models answering `y`) leaves everything untouched; otherwise the
entry is deleted and the registry saved. -/
def remove_thread (tracking_id : Nat) (force : Bool) (confirm : Bool)
    (data : Registry) : RemoveResult :=
  match data.threads.find? (fun kv => kv.2.id = tracking_id) with
  | none => ⟨data, []⟩
  | some kv =>
    if !force ∧ !confirm then ⟨data, []⟩
    else
      let data1 : Registry := ⟨eraseKey kv.1 data.threads, data.next_id⟩
      ⟨data1, [.saveEv data1]⟩

/-- Result of `cleanup_old_threads`: final registry, events, and the count
it reports (`len(threads_to_remove)`). -/
structure CleanupResult where
  data : Registry
  events : List Event
  removedCount : Nat
deriving DecidableEq

/-- `cleanup_old_threads`: collects the keys of records with
`last_update < now - 24*60*60`, deletes them, and saves (reporting the
count) only when the collected list is non-empty. -/
def cleanup_old_threads (data : Registry) (now : Int) : CleanupResult :=
  let cutoff : Int := now - (24 * 60 * 60)
  let toRemove := (data.threads.filter (fun kv => kv.2.last_update < cutoff)).map (fun kv => kv.1)
  let threads1 := toRemove.foldl (fun ts k => eraseKey k ts) data.threads
  let data1 : Registry := ⟨threads1, data.next_id⟩
  if toRemove.isEmpty then ⟨data, [], 0⟩
  else ⟨data1, [.saveEv data1], toRemove.length⟩

/-- Outcome of one iteration of the `while True` loop in `monitor_thread`:
an exception propagated (with the HTTP status), the thread vanished and the
record was removed (loop breaks), or the loop goes on with the (possibly
updated) record and registry. -/
inductive CycleStep where
  | raisedStep (code : Nat)
  | removedStep (data1 : Registry)
  | continueStep (info1 : ThreadRecord) (data1 : Registry)
deriving DecidableEq

/-- One iteration of the polling loop: fetch; on no data delete the entry
and save; on new posts notify each post above the stored cursor (iterating
the snapshot in reversed order), update the cursor and `last_update`, save,
then sleep; otherwise just sleep. -/
def monitor_cycle (board tid key : Str) (info : ThreadRecord) (data : Registry)
    (f : FetchOutcome) (now : Int) (check_interval : Nat) :
    CycleStep × List Event :=
  match fetch_thread_data f with
  | .error c => (.raisedStep c, [.fetchEv])
  | .ok none =>
    let data1 : Registry := ⟨eraseKey key data.threads, data.next_id⟩
    (.removedStep data1, [.fetchEv, .saveEv data1])
  | .ok (some td) =>
    let latest := (td.posts.getLastD defaultPost).no
    if latest > info.last_post_no then
      let newPosts := td.posts.reverse.filter (fun p => p.no > info.last_post_no)
      let notifs := newPosts.map (fun p =>
        let payload := send_notification_payload board tid (p.com.getD noContent)
        Event.notifyEv p.no payload.1 payload.2)
      let info1 := { info with last_post_no := latest, last_update := now }
      let data1 : Registry := ⟨setKey key info1 data.threads, data.next_id⟩
      (.continueStep info1 data1,
        Event.fetchEv :: notifs ++ [Event.saveEv data1, Event.sleepEv check_interval])
    else
      (.continueStep info data, [.fetchEv, .sleepEv check_interval])

/-- Result of `monitor_thread`: final durable registry, events, and the
status code of a propagated `HTTPError` (the `try` in the source catches
only `KeyboardInterrupt`). -/
structure MonitorResult where
  data : Registry
  events : List Event
  raised : Option Nat
deriving DecidableEq

/-- The polling loop, driven by one `(transport outcome, current time)` pair
per cycle; an exhausted list models the operator interrupting during the
sleep (`KeyboardInterrupt`, caught, clean exit with no further effects). -/
def monitor_loop (board tid key : Str) (info : ThreadRecord) (data : Registry)
    (check_interval : Nat) : List (FetchOutcome × Int) → MonitorResult
  | [] => ⟨data, [], none⟩
  | (f, now) :: rest =>
    match monitor_cycle board tid key info data f now check_interval with
    | (.raisedStep c, evs) => ⟨data, evs, some c⟩
    | (.removedStep data1, evs) => ⟨data1, evs, none⟩
    | (.continueStep info1 data1, evs) =>
      let r := monitor_loop board tid key info1 data1 check_interval rest
      ⟨r.data, evs ++ r.events, r.raised⟩

/-- `monitor_thread`: loads the registry (its `data` argument), returns at
once when the key is not tracked, else runs the loop with the record it
looked up.  The interval it sleeps for is the `check_interval` argument
passed by `main`, not the record's stored field. -/
def monitor_thread (board tid : Str) (check_interval : Nat) (data : Registry)
    (cycles : List (FetchOutcome × Int)) : MonitorResult :=
  let key := thread_key board tid
  match lookupKey key data.threads with
  | none => ⟨data, [], none⟩
  | some info => monitor_loop board tid key info data check_interval cycles

/-- The mutually exclusive primary CLI action. -/
inductive CliAction where
  | urlA (u : Str)
  | manualA (board tid : Str)
  | listA
  | deleteA (i : Nat)
deriving DecidableEq

/-- Result of one CLI invocation: final durable registry, events, exit code
(`1` for the `sys.exit(1)` on an invalid URL, else `0`), the status of a
propagated `HTTPError` (crashing the process), and whether the trailing
`cleanup_old_threads()` ran. -/
structure MainResult where
  data : Registry
  events : List Event
  exitCode : Nat
  raised : Option Nat
  cleanupRan : Bool
deriving DecidableEq

/-- The shared add-then-monitor-then-cleanup tail of the `--url` and
`--manual` paths.  An `HTTPError` propagating from `add_thread` or
`monitor_thread` is not caught (the `--url` handler catches only
`ValueError`), so the process dies before the cleanup step. -/
def add_and_monitor (board tid : Str) (interval : Nat) (data : Registry)
    (fetchAdd : FetchOutcome) (nowAdd : Int) (cycles : List (FetchOutcome × Int))
    (nowCleanup : Int) : MainResult :=
  let a := add_thread board tid interval data fetchAdd nowAdd
  match a.raised with
  | some c => ⟨a.data, a.events, 0, some c, false⟩
  | none =>
    let m := monitor_thread board tid interval a.data cycles
    match m.raised with
    | some c => ⟨m.data, a.events ++ m.events, 0, some c, false⟩
    | none =>
      let cl := cleanup_old_threads m.data nowCleanup
      ⟨cl.data, a.events ++ m.events ++ cl.events, 0, none, true⟩

/-- `main` after argument parsing.  The dispatch order and truthiness tests
follow the source: `args.list`, then `elif args.delete:` (so `--delete 0`
takes no branch), then `--url` (whose `ValueError` handler exits with code 1
before the cleanup step), then `--manual`; every fall-through path ends with
`cleanup_old_threads()`.  `list_threads` only prints and is omitted. -/
def main_run (action : CliAction) (interval : Nat) (force confirm : Bool)
    (data : Registry) (fetchAdd : FetchOutcome) (cycles : List (FetchOutcome × Int))
    (nowAdd nowCleanup : Int) : MainResult :=
  match action with
  | .listA =>
    let cl := cleanup_old_threads data nowCleanup
    ⟨cl.data, cl.events, 0, none, true⟩
  | .deleteA i =>
    if i ≠ 0 then
      let r := remove_thread i force confirm data
      let cl := cleanup_old_threads r.data nowCleanup
      ⟨cl.data, r.events ++ cl.events, 0, none, true⟩
    else
      let cl := cleanup_old_threads data nowCleanup
      ⟨cl.data, cl.events, 0, none, true⟩
  | .urlA u =>
    match parse_thread_url u with
    | .error _ => ⟨data, [], 1, none, false⟩
    | .ok (board, tid) =>
      add_and_monitor board tid interval data fetchAdd nowAdd cycles nowCleanup
  | .manualA board tid =>
    add_and_monitor board tid interval data fetchAdd nowAdd cycles nowCleanup

/-- One registry-mutating lifecycle operation, for stating allocator
invariants over arbitrary operation sequences. -/
inductive RegOp where
  | addOp (board tid : Str) (interval : Nat) (fetch : FetchOutcome) (now : Int)
  | removeOp (tid : Nat) (force confirm : Bool)
  | expireOp (now : Int)

/-- The registry after one lifecycle operation. -/
def applyOp (R : Registry) : RegOp → Registry
  | .addOp b t i f n => (add_thread b t i R f n).data
  | .removeOp i f c => (remove_thread i f c R).data
  | .expireOp n => (cleanup_old_threads R n).data

/-- The registry after a sequence of lifecycle operations. -/
def runOps (R : Registry) (ops : List RegOp) : Registry := ops.foldl applyOp R

/-- The tracking ids assigned by the successful adds of a sequence, in
order. -/
def assignedIds (R : Registry) : List RegOp → List Nat
  | [] => []
  | op :: ops =>
    (match op with
      | .addOp b t i f n => ((add_thread b t i R f n).assignedId).toList
      | _ => []) ++ assignedIds (applyOp R op) ops

/-- The allocator hypothesis of the claim: `next_id` exceeds every tracking
id present in the registry. -/
def InvReg (R : Registry) : Prop := ∀ kv ∈ R.threads, kv.2.id < R.next_id

instance : DecidablePred InvReg := fun R =>
  inferInstanceAs (Decidable (∀ kv ∈ R.threads, kv.2.id < R.next_id))

/-- The tracking ids of the records of a registry, in dict order. -/
def regIds (R : Registry) : List Nat := R.threads.map (fun kv => kv.2.id)

/-! Concrete fixtures used by witnesses and counterexamples. -/

/-- A sample board name. -/
def sampleBoard : Str := "g".toList

/-- A sample remote thread id. -/
def sampleTid : Str := "1".toList

/-- The composite key of the sample thread. -/
def sampleKey : Str := thread_key sampleBoard sampleTid

/-- A sample tracked record: tracking id 1, cursor 10, stored
`check_interval` 120, `last_update` at epoch time 0. -/
def sampleRecord : ThreadRecord :=
  ⟨1, sampleBoard, sampleTid, "t".toList, 10, 0, 120, 0⟩

/-- A registry holding exactly the sample record, with `next_id = 2`. -/
def sampleReg : Registry := ⟨[(sampleKey, sampleRecord)], 2⟩

/-- A snapshot whose last post number equals the sample record's cursor
(no new posts). -/
def tdSame : ThreadData := ⟨[⟨10, none, none⟩]⟩

/-! ## C1 -/

/-- C1: evaluation of the code at the failing input.  The claim says a poll
cycle whose fetch fails for a transport-level reason other than "not found"
aborts without deleting the registry entry; but when the transport raises a
non-`HTTPError` exception (e.g. a network error), `fetch_thread_data`
swallows it and returns `None`, and `monitor_thread` then deletes the
tracked record and saves, exactly as for a genuine "not found". -/
theorem c1_code_eval :
    (monitor_thread sampleBoard sampleTid 120 sampleReg [(.otherError, 50)]).data.threads = [] ∧
    (monitor_thread sampleBoard sampleTid 120 sampleReg [(.otherError, 50)]).events =
      [Event.fetchEv, Event.saveEv ⟨[], 2⟩] ∧
    sampleReg.threads ≠ [] := by decide

/-! ## C4 -/

/-- C4: adding a `(board, threadId)` pair already present in the registry
performs no mutation at all: the result registry is the input registry
(mapping and `next_id` untouched), no id is assigned, nothing is raised,
and the event trace is empty, so no remote fetch and no save occurs. -/
theorem c4_duplicate_add_noop (board tid : Str) (interval : Nat) (data : Registry)
    (fetch : FetchOutcome) (now : Int)
    (h : (lookupKey (thread_key board tid) data.threads).isSome = true) :
    add_thread board tid interval data fetch now = ⟨data, [], none, none⟩ := by
  unfold add_thread
  simp [h]

/-- C4 witness: the duplicate-add no-op at the sample registry. -/
theorem c4_witness :
    add_thread sampleBoard sampleTid 120 sampleReg .otherError 50 =
      ⟨sampleReg, [], none, none⟩ :=
  c4_duplicate_add_noop sampleBoard sampleTid 120 sampleReg .otherError 50 (by decide)

/-! ## C10 -/

/-- C10 counterexample: with tracking id 0, the delete branch is skipped
(`elif args.delete:` is false for 0), but the invocation still runs the
trailing expiry sweep, which at this registry state removes the (stale)
sample record and saves — so the invocation does remove a record and does
save, contradicting "performs no registry mutation for every registry
state". -/
theorem c10_counterexample :
    (main_run (.deleteA 0) 120 false false sampleReg .otherError [] 0 100000).data.threads = [] ∧
    (main_run (.deleteA 0) 120 false false sampleReg .otherError [] 0 100000).events =
      [Event.saveEv ⟨[], 2⟩] ∧
    sampleReg.threads ≠ [] := by decide

/-- C10 (amended): a delete invocation given tracking id 0 never reaches
`remove_thread` — the whole invocation behaves exactly like the trailing
expiry sweep alone: same final registry, the sweep's events and nothing
else, exit code 0. -/
theorem c10_amended (interval : Nat) (force confirm : Bool) (data : Registry)
    (fetchAdd : FetchOutcome) (cycles : List (FetchOutcome × Int)) (nowAdd nowCleanup : Int) :
    main_run (.deleteA 0) interval force confirm data fetchAdd cycles nowAdd nowCleanup =
      ⟨(cleanup_old_threads data nowCleanup).data,
        (cleanup_old_threads data nowCleanup).events, 0, none, true⟩ := rfl

/-! ## C7 -/

/-- C7 counterexample: an invocation whose primary action is `--url` with a
malformed URL raises `ValueError`, which `main` catches and turns into
`sys.exit(1)` — the expiry sweep never runs, contradicting "every CLI
invocation, however its action ends, executes the expiry sweep". -/
theorem c7_counterexample :
    (main_run (.urlA ("zzz".toList)) 120 false false sampleReg .otherError [] 0 0).cleanupRan
        = false ∧
    (main_run (.urlA ("zzz".toList)) 120 false false sampleReg .otherError [] 0 0).exitCode
        = 1 := by decide

/-! ## C9 -/

/-- No sleep event is produced by `add_thread`. -/
theorem add_thread_no_sleep (board tid : Str) (interval : Nat) (data : Registry)
    (fetch : FetchOutcome) (now : Int) (s : Nat) :
    Event.sleepEv s ∉ (add_thread board tid interval data fetch now).events := by
  simp only [add_thread]
  split <;> (try split) <;> simp

/-- No sleep event is produced by `remove_thread`. -/
theorem remove_thread_no_sleep (tracking_id : Nat) (force confirm : Bool)
    (data : Registry) (s : Nat) :
    Event.sleepEv s ∉ (remove_thread tracking_id force confirm data).events := by
  simp only [remove_thread]
  split <;> (try split) <;> simp

/-- No sleep event is produced by `cleanup_old_threads`. -/
theorem cleanup_no_sleep (data : Registry) (now : Int) (s : Nat) :
    Event.sleepEv s ∉ (cleanup_old_threads data now).events := by
  simp only [cleanup_old_threads]
  split <;> simp

/-- Every sleep of one poll cycle lasts exactly the `check_interval`
argument of `monitor_cycle`. -/
theorem monitor_cycle_sleep_eq (board tid key : Str) (info : ThreadRecord)
    (data : Registry) (f : FetchOutcome) (now : Int) (ci s : Nat)
    (h : Event.sleepEv s ∈ (monitor_cycle board tid key info data f now ci).2) :
    s = ci := by
  simp only [monitor_cycle] at h
  split at h
  · simp at h
  · simp at h
  · split at h
    · simp at h
      exact h
    · simp at h
      exact h

/-- Every sleep of the polling loop lasts exactly its `check_interval`
argument. -/
theorem monitor_loop_sleep_eq (board tid key : Str) (ci : Nat) :
    ∀ (cycles : List (FetchOutcome × Int)) (info : ThreadRecord) (data : Registry) (s : Nat),
      Event.sleepEv s ∈ (monitor_loop board tid key info data ci cycles).events → s = ci
  | [], _, _, _ => by
    intro h
    simp [monitor_loop] at h
  | (f, now) :: rest, info, data, s => by
    intro h
    unfold monitor_loop at h
    rcases hc : monitor_cycle board tid key info data f now ci with ⟨step, evs⟩
    have hcyc : ∀ u, Event.sleepEv u ∈ evs → u = ci := by
      intro u hu
      exact monitor_cycle_sleep_eq board tid key info data f now ci u (by rw [hc]; exact hu)
    rw [hc] at h
    cases step with
    | raisedStep c => exact hcyc s h
    | removedStep data1 => exact hcyc s h
    | continueStep info1 data1 =>
      simp only [List.mem_append] at h
      rcases h with h | h
      · exact hcyc s h
      · exact monitor_loop_sleep_eq board tid key ci rest info1 data1 s h

/-- Every sleep of `monitor_thread` lasts exactly its `check_interval`
argument. -/
theorem monitor_thread_sleep_eq (board tid : Str) (ci : Nat) (data : Registry)
    (cycles : List (FetchOutcome × Int)) (s : Nat)
    (h : Event.sleepEv s ∈ (monitor_thread board tid ci data cycles).events) :
    s = ci := by
  simp only [monitor_thread] at h
  split at h
  · simp at h
  · exact monitor_loop_sleep_eq board tid _ ci cycles _ data s h

/-- Every sleep of the shared add-then-monitor-then-cleanup path lasts
exactly the invocation's interval argument. -/
theorem add_and_monitor_sleep_eq (board tid : Str) (interval : Nat) (data : Registry)
    (fetchAdd : FetchOutcome) (nowAdd : Int) (cycles : List (FetchOutcome × Int))
    (nowCleanup : Int) (s : Nat)
    (h : Event.sleepEv s ∈
      (add_and_monitor board tid interval data fetchAdd nowAdd cycles nowCleanup).events) :
    s = interval := by
  simp only [add_and_monitor] at h
  split at h
  · exact absurd h (add_thread_no_sleep board tid interval data fetchAdd nowAdd s)
  · split at h
    · simp only [List.mem_append] at h
      rcases h with h | h
      · exact absurd h (add_thread_no_sleep board tid interval data fetchAdd nowAdd s)
      · exact monitor_thread_sleep_eq board tid interval _ cycles s h
    · simp only [List.mem_append] at h
      rcases h with (h | h) | h
      · exact absurd h (add_thread_no_sleep board tid interval data fetchAdd nowAdd s)
      · exact monitor_thread_sleep_eq board tid interval _ cycles s h
      · exact absurd h (cleanup_no_sleep _ nowCleanup s)

/-- C9 counterexample: the sample record's stored `checkInterval` is 120,
but an invocation run with `--interval 5` over it sleeps 5 seconds in its
poll cycle — the loop's suspension follows the command-line interval, not
the interval fixed at the record's creation. -/
theorem c9_counterexample :
    (main_run (.manualA sampleBoard sampleTid) 5 false false sampleReg (.success tdSame)
        [(.success tdSame, 50)] 50 50).events = [Event.fetchEv, Event.sleepEv 5] ∧
    (lookupKey sampleKey sampleReg.threads).map ThreadRecord.check_interval = some 120 ∧
    (5 : Nat) ≠ 120 := by decide

/-- C9 (amended): every suspension of the polling loop lasts exactly the
interval value supplied to the current invocation (`--interval`, default
120); the record's stored `checkInterval` is written at creation but never
read back by the loop. -/
theorem c9_amended (action : CliAction) (interval : Nat) (force confirm : Bool)
    (data : Registry) (fetchAdd : FetchOutcome) (cycles : List (FetchOutcome × Int))
    (nowAdd nowCleanup : Int) (s : Nat)
    (h : Event.sleepEv s ∈
      (main_run action interval force confirm data fetchAdd cycles nowAdd nowCleanup).events) :
    s = interval := by
  cases action with
  | listA =>
    exact absurd h (cleanup_no_sleep data nowCleanup s)
  | deleteA i =>
    simp only [main_run] at h
    split at h
    · simp only [List.mem_append] at h
      rcases h with h | h
      · exact absurd h (remove_thread_no_sleep i force confirm data s)
      · exact absurd h (cleanup_no_sleep _ nowCleanup s)
    · exact absurd h (cleanup_no_sleep data nowCleanup s)
  | urlA u =>
    simp only [main_run] at h
    split at h
    · simp at h
    · exact add_and_monitor_sleep_eq _ _ interval data fetchAdd nowAdd cycles nowCleanup s h
  | manualA board tid =>
    simp only [main_run] at h
    exact add_and_monitor_sleep_eq board tid interval data fetchAdd nowAdd cycles nowCleanup s h

/-- C9 amended witness: at a concrete invocation with `--interval 5` whose
single cycle sleeps, the theorem pins that sleep to 5 seconds. -/
theorem c9_amended_witness : (5 : Nat) = 5 :=
  c9_amended (.manualA sampleBoard sampleTid) 5 false false sampleReg (.success tdSame)
    [(.success tdSame, 50)] 50 50 5 (by decide)

/-! ## C7 (amended) -/

/-- When the add-then-monitor path propagates no exception, it ends with
the expiry sweep: its events are the earlier events followed by the sweep's
events, and its final registry is the sweep's output. -/
theorem add_and_monitor_cleanup_last (board tid : Str) (interval : Nat) (data : Registry)
    (fetchAdd : FetchOutcome) (nowAdd : Int) (cycles : List (FetchOutcome × Int))
    (nowCleanup : Int)
    (h2 : (add_and_monitor board tid interval data fetchAdd nowAdd cycles nowCleanup).raised
        = none) :
    (add_and_monitor board tid interval data fetchAdd nowAdd cycles nowCleanup).cleanupRan
        = true ∧
    ∃ pre R1,
      (add_and_monitor board tid interval data fetchAdd nowAdd cycles nowCleanup).events =
        pre ++ (cleanup_old_threads R1 nowCleanup).events ∧
      (add_and_monitor board tid interval data fetchAdd nowAdd cycles nowCleanup).data =
        (cleanup_old_threads R1 nowCleanup).data := by
  rcases ha : (add_thread board tid interval data fetchAdd nowAdd).raised with _ | c
  · rcases hm : (monitor_thread board tid interval
        (add_thread board tid interval data fetchAdd nowAdd).data cycles).raised with _ | c
    · simp only [add_and_monitor, ha, hm]
      exact ⟨by trivial,
        (add_thread board tid interval data fetchAdd nowAdd).events ++
          (monitor_thread board tid interval
            (add_thread board tid interval data fetchAdd nowAdd).data cycles).events,
        (monitor_thread board tid interval
          (add_thread board tid interval data fetchAdd nowAdd).data cycles).data,
        rfl, rfl⟩
    · exfalso
      simp only [add_and_monitor, ha, hm] at h2
      exact Option.noConfusion h2
  · exfalso
    simp only [add_and_monitor, ha] at h2
    exact Option.noConfusion h2

/-- C7 (amended): every invocation that does not exit early — exit code 0
and no propagated transport exception; an invalid `--url` exits with code 1
before the sweep, and an uncaught `HTTPError` kills the process before it —
runs the expiry sweep as its final step: its events end with the sweep's
events and its final registry is the sweep's output. -/
theorem c7_amended (action : CliAction) (interval : Nat) (force confirm : Bool)
    (data : Registry) (fetchAdd : FetchOutcome) (cycles : List (FetchOutcome × Int))
    (nowAdd nowCleanup : Int)
    (h1 : (main_run action interval force confirm data fetchAdd cycles nowAdd nowCleanup).exitCode
        = 0)
    (h2 : (main_run action interval force confirm data fetchAdd cycles nowAdd nowCleanup).raised
        = none) :
    (main_run action interval force confirm data fetchAdd cycles nowAdd nowCleanup).cleanupRan
        = true ∧
    ∃ pre R1,
      (main_run action interval force confirm data fetchAdd cycles nowAdd nowCleanup).events =
        pre ++ (cleanup_old_threads R1 nowCleanup).events ∧
      (main_run action interval force confirm data fetchAdd cycles nowAdd nowCleanup).data =
        (cleanup_old_threads R1 nowCleanup).data := by
  cases action with
  | listA =>
    exact ⟨rfl, [], data, rfl, rfl⟩
  | deleteA i =>
    by_cases hi : i = 0
    · subst hi
      exact ⟨rfl, [], data, rfl, rfl⟩
    · refine ⟨?_, (remove_thread i force confirm data).events,
        (remove_thread i force confirm data).data, ?_, ?_⟩ <;> simp [main_run, hi]
  | urlA u =>
    rcases hp : parse_thread_url u with e | ⟨board, tid⟩
    · simp only [main_run, hp] at h1
      exact absurd h1 (by decide)
    · simp only [main_run, hp] at h2 ⊢
      exact add_and_monitor_cleanup_last board tid interval data fetchAdd nowAdd cycles
        nowCleanup h2
  | manualA board tid =>
    simp only [main_run] at h2 ⊢
    exact add_and_monitor_cleanup_last board tid interval data fetchAdd nowAdd cycles
      nowCleanup h2

/-- C7 amended witness: a `--list` invocation at the sample registry runs
the sweep as its final step. -/
theorem c7_amended_witness :
    (main_run .listA 120 false false sampleReg .otherError [] 0 50).cleanupRan = true ∧
    ∃ pre R1,
      (main_run .listA 120 false false sampleReg .otherError [] 0 50).events =
        pre ++ (cleanup_old_threads R1 50).events ∧
      (main_run .listA 120 false false sampleReg .otherError [] 0 50).data =
        (cleanup_old_threads R1 50).data :=
  c7_amended .listA 120 false false sampleReg .otherError [] 0 50 (by decide) (by decide)

/-! ## C6 -/

/-- Folding `eraseKey` over keys that avoid the head leaves the head in
place. -/
theorem foldl_eraseKey_cons (kv : Str × ThreadRecord) :
    ∀ (ks : List Str) (l : List (Str × ThreadRecord)), kv.1 ∉ ks →
      List.foldl (fun ts k => eraseKey k ts) (kv :: l) ks =
        kv :: List.foldl (fun ts k => eraseKey k ts) l ks
  | [], _, _ => rfl
  | k :: ks, l, h => by
    have hk : ¬(kv.1 = k) := fun he => h (by simp [he])
    simp only [List.foldl_cons, eraseKey, if_neg hk]
    exact foldl_eraseKey_cons kv ks (eraseKey k l)
      (fun hm => h (List.mem_cons_of_mem _ hm))

/-- Deleting, one by one, the keys of exactly the entries satisfying `p`
from a dict with no duplicate keys keeps exactly the entries refuting `p`,
in order and verbatim. -/
theorem foldl_eraseKey_filter (p : Str × ThreadRecord → Bool) :
    ∀ l : List (Str × ThreadRecord),
      (l.map (fun kv => kv.1)).Nodup →
      List.foldl (fun ts k => eraseKey k ts) l ((l.filter p).map (fun kv => kv.1)) =
        l.filter (fun kv => !(p kv))
  | [], _ => rfl
  | kv :: rest, h => by
    have h1 : kv.1 ∉ rest.map (fun kv => kv.1) := (List.nodup_cons.mp h).1
    have h2 : (rest.map (fun kv => kv.1)).Nodup := (List.nodup_cons.mp h).2
    cases hpv : p kv with
    | true =>
      rw [List.filter_cons_of_pos hpv]
      simp only [List.map_cons, List.foldl_cons]
      rw [show eraseKey kv.1 (kv :: rest) = rest from by simp [eraseKey]]
      rw [foldl_eraseKey_filter p rest h2]
      rw [List.filter_cons_of_neg (by simp [hpv])]
    | false =>
      rw [List.filter_cons_of_neg (by simp [hpv])]
      have hnot : kv.1 ∉ (rest.filter p).map (fun kv => kv.1) := fun hm => by
        rcases List.mem_map.mp hm with ⟨kv2, hkv2, hfst⟩
        exact h1 (List.mem_map.mpr ⟨kv2, List.mem_of_mem_filter hkv2, hfst⟩)
      rw [foldl_eraseKey_cons kv _ rest hnot, foldl_eraseKey_filter p rest h2]
      rw [List.filter_cons_of_pos (by simp [hpv])]

/-- C6: at a registry whose keys are distinct (a Python dict guarantees
this), the expiry sweep keeps exactly the records whose `lastUpdate` is not
older than 24 hours — each kept verbatim, in order, with `next_id`
untouched — reports the number of removed records, performs no save when
nothing was removed, and performs exactly one save (of the swept registry)
when something was. -/
theorem c6_expire_exact (data : Registry) (now : Int)
    (hnd : (data.threads.map (fun kv => kv.1)).Nodup) :
    (cleanup_old_threads data now).data.threads =
      data.threads.filter
        (fun kv => !(decide (kv.2.last_update < now - (24 * 60 * 60)))) ∧
    (cleanup_old_threads data now).data.next_id = data.next_id ∧
    (cleanup_old_threads data now).removedCount =
      (data.threads.filter
        (fun kv => decide (kv.2.last_update < now - (24 * 60 * 60)))).length ∧
    ((data.threads.filter
        (fun kv => decide (kv.2.last_update < now - (24 * 60 * 60)))).isEmpty = true →
      (cleanup_old_threads data now).events = []) ∧
    ((data.threads.filter
        (fun kv => decide (kv.2.last_update < now - (24 * 60 * 60)))).isEmpty = false →
      (cleanup_old_threads data now).events =
        [Event.saveEv (cleanup_old_threads data now).data]) := by
  rcases hl : data.threads.filter
      (fun kv => decide (kv.2.last_update < now - (24 * 60 * 60))) with _ | ⟨a, l⟩
  · have hres : cleanup_old_threads data now = ⟨data, [], 0⟩ := by
      simp only [cleanup_old_threads, hl, List.map_nil, List.isEmpty_nil, if_true]
    rw [hres, hl]
    refine ⟨?_, rfl, rfl, fun _ => rfl, fun hco => absurd hco (by simp)⟩
    · symm
      rw [List.filter_eq_self]
      intro kv hkv
      have hnp := List.filter_eq_nil_iff.mp hl kv hkv
      rw [Bool.not_eq_true', decide_eq_false_iff_not]
      exact fun hp => hnp (decide_eq_true hp)
  · have hfoldl := foldl_eraseKey_filter
      (fun kv => decide (kv.2.last_update < now - (24 * 60 * 60))) data.threads hnd
    rw [hl] at hfoldl
    simp only [cleanup_old_threads]
    rw [hl]
    rw [show ((a :: l).map (fun kv => kv.1)).isEmpty = false from rfl]
    rw [if_neg Bool.false_ne_true]
    refine ⟨hfoldl, rfl, by simp, fun hco => absurd hco (by simp), fun _ => rfl⟩

/-- A second, fresh record for registries with two entries. -/
def freshRecord : ThreadRecord :=
  ⟨2, sampleBoard, "2".toList, "u".toList, 5, 99000, 120, 0⟩

/-- A registry with one stale record (`last_update = 0`) and one fresh
record (`last_update = 99000`). -/
def twoReg : Registry :=
  ⟨[(sampleKey, sampleRecord), (thread_key sampleBoard ("2".toList), freshRecord)], 3⟩

/-- C6 witness: sweeping `twoReg` at time 100000 (cutoff 13600) removes
exactly the stale record, keeps the fresh one verbatim, reports 1, and
saves once. -/
theorem c6_witness :
    (cleanup_old_threads twoReg 100000).data.threads =
      twoReg.threads.filter
        (fun kv => !(decide (kv.2.last_update < 100000 - (24 * 60 * 60)))) ∧
    (cleanup_old_threads twoReg 100000).data.next_id = twoReg.next_id ∧
    (cleanup_old_threads twoReg 100000).removedCount =
      (twoReg.threads.filter
        (fun kv => decide (kv.2.last_update < 100000 - (24 * 60 * 60)))).length ∧
    ((twoReg.threads.filter
        (fun kv => decide (kv.2.last_update < 100000 - (24 * 60 * 60)))).isEmpty = true →
      (cleanup_old_threads twoReg 100000).events = []) ∧
    ((twoReg.threads.filter
        (fun kv => decide (kv.2.last_update < 100000 - (24 * 60 * 60)))).isEmpty = false →
      (cleanup_old_threads twoReg 100000).events =
        [Event.saveEv (cleanup_old_threads twoReg 100000).data]) :=
  c6_expire_exact twoReg 100000 (by decide)

/-! ## C2 -/

/-- In a list of posts with strictly increasing numbers, every post's
number is at most the last post's number. -/
theorem chain_le_getLastD (d : Post) :
    ∀ l : List Post, l.Chain' (fun p q => p.no < q.no) →
      ∀ q ∈ l, q.no ≤ (l.getLastD d).no
  | [], _, q, hq => absurd hq (List.not_mem_nil q)
  | [x], _, q, hq => by
    rcases List.mem_singleton.mp hq with rfl
    exact Nat.le_refl _
  | x :: y :: ys, h, q, hq => by
    rw [List.chain'_cons] at h
    have htail := chain_le_getLastD d (y :: ys) h.2
    have heq : (x :: y :: ys).getLastD d = (y :: ys).getLastD d := by
      simp [List.getLastD_cons]
    rcases List.mem_cons.mp hq with rfl | hq2
    · rw [heq]
      exact Nat.le_of_lt (Nat.lt_of_lt_of_le h.1 (htail y (List.mem_cons_self y ys)))
    · rw [heq]
      exact htail q hq2

/-- The last element of a non-empty list is one of its elements. -/
theorem getLastD_mem : ∀ (d : Post) (l : List Post), l ≠ [] → l.getLastD d ∈ l
  | _, [], h => absurd rfl h
  | d, [x], _ => by simp [List.getLastD_cons]
  | d, x :: y :: ys, _ => by
    rw [List.getLastD_cons]
    exact List.mem_cons_of_mem x (getLastD_mem x (y :: ys) (by simp))

/-- C2: a poll cycle over a snapshot (non-empty, posts in strictly
ascending number order) whose last post number exceeds the stored cursor:
the cycle emits exactly one notification per post whose number is strictly
above the old cursor (the filtered posts, in reversed order, and nothing
else), then exactly one save of the registry holding the record with
`last_post_no` set (once) to the snapshot's last — hence maximum — post
number and `last_update` set to the current time, and only then the
suspension; the filtered post numbers are pairwise distinct, so no post is
notified twice. -/
theorem c2_new_posts_cycle (board tid key : Str) (info : ThreadRecord) (data : Registry)
    (td : ThreadData) (now : Int) (ci : Nat)
    (hne : td.posts ≠ [])
    (hsorted : td.posts.Chain' (fun p q => p.no < q.no))
    (hnew : (td.posts.getLastD defaultPost).no > info.last_post_no) :
    monitor_cycle board tid key info data (.success td) now ci =
      (CycleStep.continueStep
        { info with last_post_no := (td.posts.getLastD defaultPost).no, last_update := now }
        ⟨setKey key
            { info with last_post_no := (td.posts.getLastD defaultPost).no, last_update := now }
            data.threads, data.next_id⟩,
        Event.fetchEv ::
          ((td.posts.filter (fun p => p.no > info.last_post_no)).reverse).map (fun p =>
            Event.notifyEv p.no
              (send_notification_payload board tid (p.com.getD noContent)).1
              (send_notification_payload board tid (p.com.getD noContent)).2) ++
          [Event.saveEv ⟨setKey key
              { info with last_post_no := (td.posts.getLastD defaultPost).no, last_update := now }
              data.threads, data.next_id⟩,
            Event.sleepEv ci]) ∧
    (∀ q ∈ td.posts, q.no ≤ (td.posts.getLastD defaultPost).no) ∧
    (td.posts.getLastD defaultPost) ∈ td.posts ∧
    ((td.posts.filter (fun p => p.no > info.last_post_no)).map Post.no).Nodup := by
  refine ⟨?_, chain_le_getLastD defaultPost td.posts hsorted,
    getLastD_mem defaultPost td.posts hne, ?_⟩
  · simp only [monitor_cycle, fetch_thread_data]
    rw [if_pos hnew, List.filter_reverse]
  · haveI : IsTrans Post (fun p q => p.no < q.no) :=
      ⟨fun _ _ _ h1 h2 => Nat.lt_trans h1 h2⟩
    have pw : td.posts.Pairwise (fun p q => p.no < q.no) :=
      List.chain'_iff_pairwise.mp hsorted
    have pw2 : (td.posts.filter (fun p => p.no > info.last_post_no)).Pairwise
        (fun p q => p.no < q.no) :=
      pw.sublist (List.filter_sublist td.posts)
    have pw3 : ((td.posts.filter (fun p => p.no > info.last_post_no)).map Post.no).Pairwise
        (· < ·) := List.pairwise_map.mpr pw2
    exact pw3.imp Nat.ne_of_lt

/-- A snapshot with three posts, two of them above the sample cursor 10. -/
def tdNew : ThreadData :=
  ⟨[⟨10, none, some ("old".toList)⟩, ⟨11, none, some ("n1".toList)⟩, ⟨12, none, none⟩]⟩

/-- C2 witness: the hypotheses hold at the sample record and `tdNew`, so
the cycle theorem applies there. -/
theorem c2_witness : (tdNew.posts.getLastD defaultPost) ∈ tdNew.posts :=
  (c2_new_posts_cycle sampleBoard sampleTid sampleKey sampleRecord sampleReg tdNew 50 5
    (by decide) (by simp [tdNew, List.chain'_cons]) (by decide)).2.2.1

/-! ## C8 -/

/-- A string without `<` is left unchanged by the tag-stripping. -/
theorem stripHtml_no_tag : ∀ s : Str, (∀ ch ∈ s, ch ≠ '<') → stripHtml s = s
  | [], _ => by rw [stripHtml]
  | c :: rest, h => by
    rw [stripHtml, if_neg (fun hand => h c (List.mem_cons_self c rest) hand.1)]
    rw [stripHtml_no_tag rest (fun ch hch => h ch (List.mem_cons_of_mem c hch))]

/-- The title rule in the spec's words (the refinement comparison side):
the subject field when non-empty; else the markup-stripped body, kept
verbatim when at most 50 characters and truncated to its first 50
characters plus the ellipsis marker when longer; else a fallback label
containing the post's own numeric id. -/
def specTitleRule (p : Post) : Str :=
  if optNonempty p.sub then p.sub.getD []
  else if optNonempty p.com then
    let stripped := stripHtml (p.com.getD [])
    if stripped.length ≤ 50 then stripped else stripped.take 50 ++ ellipsis
  else "Thread ".toList ++ (toString p.no).toList

/-- C8: title derivation from a snapshot's first post follows exactly the
spec's rule, and in particular a first post with empty (or absent) subject
and a markup-free 120-character body titles as the body's first 50
characters plus the ellipsis marker. -/
theorem c8_title_rule (td : ThreadData) (p : Post) (rest : List Post)
    (h : td.posts = p :: rest) :
    get_thread_title (some td) = specTitleRule p ∧
    (∀ c : Str, (p.sub = none ∨ p.sub = some []) → p.com = some c → c ≠ [] →
      (∀ ch ∈ c, ch ≠ '<') → c.length = 120 →
      get_thread_title (some td) = c.take 50 ++ ellipsis) := by
  constructor
  · simp only [get_thread_title, h, List.headD_cons, specTitleRule]
    split_ifs <;> first | rfl | (exfalso; omega)
  · intro c hsub hcom hcne hnotag hlen
    have hopt : optNonempty p.sub = false := by
      rcases hsub with h1 | h1 <;> simp [optNonempty, h1]
    have hoptc : optNonempty (some c) = true := by
      cases c with
      | nil => exact absurd rfl hcne
      | cons a cs => simp [optNonempty]
    simp only [get_thread_title, h, List.headD_cons, hopt, hoptc, Bool.false_eq_true,
      if_false, if_true, hcom, Option.getD_some]
    rw [stripHtml_no_tag c hnotag, hlen]
    rw [if_pos (by decide : 120 > 50)]

/-- A first post with empty subject and a 120-character markup-free body. -/
def pLong : Post := ⟨7, some [], some (List.replicate 120 'a')⟩

/-- The snapshot holding only `pLong`. -/
def tdLong : ThreadData := ⟨[pLong]⟩

/-- C8 witness: the 120-character-body instance at `tdLong`. -/
theorem c8_witness :
    get_thread_title (some tdLong) = (List.replicate 120 'a').take 50 ++ ellipsis :=
  (c8_title_rule tdLong pLong [] rfl).2 (List.replicate 120 'a') (Or.inr rfl) rfl
    (by decide) (by decide) (by decide)

/-! ## C5 -/

/-- `dropLit` strips an actual leading segment. -/
theorem dropLit_append : ∀ (lit s : Str), dropLit lit (lit ++ s) = some s
  | [], _ => rfl
  | a :: ls, s => by
    simp only [List.cons_append, dropLit, eq_self_iff_true, if_true]
    exact dropLit_append ls s

/-- `dropLit` succeeding means the string decomposes as literal plus rest. -/
theorem dropLit_some : ∀ (lit s t : Str), dropLit lit s = some t → s = lit ++ t
  | [], s, t, h => by cases h; rfl
  | _ :: _, [], _, h => by cases h
  | a :: ls, b :: ss, t, h => by
    by_cases hab : a = b
    · subst hab
      simp only [dropLit, eq_self_iff_true, if_true] at h
      rw [List.cons_append, dropLit_some ls ss t h]
    · simp only [dropLit, if_neg hab] at h
      exact Option.noConfusion h

/-- Every element `takeWhile` keeps satisfies the test. -/
theorem mem_takeWhile_sat (p : Char → Bool) :
    ∀ l : Str, ∀ c ∈ l.takeWhile p, p c = true
  | [], c, h => absurd h (List.not_mem_nil c)
  | a :: l, c, h => by
    rw [List.takeWhile_cons] at h
    split at h
    · rcases List.mem_cons.mp h with rfl | h2
      · assumption
      · exact mem_takeWhile_sat p l c h2
    · exact absurd h (List.not_mem_nil c)

/-- The first element `dropWhile` leaves fails the test. -/
theorem head_dropWhile_false (p : Char → Bool) :
    ∀ l : Str, ∀ c, (l.dropWhile p).head? = some c → p c = false
  | [], c, h => by cases h
  | a :: l, c, h => by
    rw [List.dropWhile_cons] at h
    split at h
    · exact head_dropWhile_false p l c h
    · rename_i hpa
      rw [List.head?_cons] at h
      cases h
      cases hpc : p a
      · rfl
      · exact absurd hpc hpa

/-- `takeWhile` over a satisfying block followed by a failing head stops at
exactly the block. -/
theorem takeWhile_append_eq (p : Char → Bool) :
    ∀ (l r : Str), (∀ c ∈ l, p c = true) → (∀ c, r.head? = some c → p c = false) →
      (l ++ r).takeWhile p = l
  | [], r, _, hr => by
    cases r with
    | nil => rfl
    | cons c cs =>
      rw [List.nil_append, List.takeWhile_cons, if_neg (by simp [hr c rfl])]
  | a :: l, r, hl, hr => by
    rw [List.cons_append, List.takeWhile_cons, if_pos (hl a (List.mem_cons_self a l))]
    rw [takeWhile_append_eq p l r (fun c hc => hl c (List.mem_cons_of_mem a hc)) hr]

/-- `dropWhile` over a satisfying block followed by a failing head drops
exactly the block. -/
theorem dropWhile_append_eq (p : Char → Bool) :
    ∀ (l r : Str), (∀ c ∈ l, p c = true) → (∀ c, r.head? = some c → p c = false) →
      (l ++ r).dropWhile p = r
  | [], r, _, hr => by
    cases r with
    | nil => rfl
    | cons c cs =>
      rw [List.nil_append, List.dropWhile_cons, if_neg (by simp [hr c rfl])]
  | a :: l, r, hl, hr => by
    rw [List.cons_append, List.dropWhile_cons, if_pos (hl a (List.mem_cons_self a l))]
    exact dropWhile_append_eq p l r (fun c hc => hl c (List.mem_cons_of_mem a hc)) hr

/-- The spec's canonical thread-URL form as a predicate on the whole string
(the refinement comparison side): literal head, a non-empty board segment
without `/`, the literal `/thread/`, and a non-empty run of digits ending
the string. -/
def IsCanonicalUrl (url : Str) : Prop :=
  ∃ b d, b ≠ [] ∧ (∀ c ∈ b, c ≠ '/') ∧ d ≠ [] ∧ (∀ c ∈ d, c.isDigit = true) ∧
    url = urlLit ++ (b ++ (midLit ++ d))

/-- A canonical URL ends in a digit. -/
theorem canonical_last_digit (url : Str) (h : IsCanonicalUrl url) :
    ∃ c, url.getLast? = some c ∧ c.isDigit = true := by
  rcases h with ⟨b, d, hb, hslash, hd, hdig, rfl⟩
  have hlast : d.getLast? = some (d.getLast hd) := List.getLast?_eq_getLast d hd
  refine ⟨d.getLast hd, ?_, hdig _ (List.getLast_mem hd)⟩
  rw [List.getLast?_append, List.getLast?_append, List.getLast?_append, hlast]
  rfl

/-- C5 (amended): `parse_thread_url` succeeds with `(b, d)` exactly on the
strings that BEGIN with the canonical form — literal head, non-empty
slash-free board `b`, `/thread/`, non-empty digit run `d` — followed by any
remainder that does not start with a digit (`re.match` anchors only at the
start, so trailing text is accepted); in particular every fully canonical
string (empty remainder) is parsed to exactly its embedded pair, and every
string with no such canonical head fails with the `InvalidReference`
error. -/
theorem c5_amended (url b d : Str) :
    parse_thread_url url = .ok (b, d) ↔
      (b ≠ [] ∧ (∀ c ∈ b, c ≠ '/') ∧ d ≠ [] ∧ (∀ c ∈ d, c.isDigit = true) ∧
       ∃ rest, (∀ c, rest.head? = some c → c.isDigit = false) ∧
         url = urlLit ++ (b ++ (midLit ++ (d ++ rest)))) := by
  constructor
  · intro hok
    simp only [parse_thread_url] at hok
    split at hok
    · exact Except.noConfusion hok
    · rename_i t hu
      split at hok
      · exact Except.noConfusion hok
      · rename_i hbne
        split at hok
        · exact Except.noConfusion hok
        · rename_i v hv
          split at hok
          · exact Except.noConfusion hok
          · rename_i hdne
            simp only [Except.ok.injEq, Prod.mk.injEq] at hok
            obtain ⟨h5, h6⟩ := hok
            subst h5
            subst h6
            refine ⟨hbne, ?_, hdne, fun c hc => mem_takeWhile_sat Char.isDigit v c hc, ?_⟩
            · intro c hc
              exact of_decide_eq_true (mem_takeWhile_sat _ t c hc)
            · refine ⟨v.dropWhile Char.isDigit, fun c hc =>
                head_dropWhile_false Char.isDigit v c hc, ?_⟩
              have h1 : url = urlLit ++ t := dropLit_some urlLit url t hu
              have h2 : t.dropWhile (fun c => c ≠ '/') = midLit ++ v :=
                dropLit_some midLit _ v hv
              have h3 : t.takeWhile (fun c => c ≠ '/') ++
                  t.dropWhile (fun c => c ≠ '/') = t :=
                List.takeWhile_append_dropWhile _ t
              have h4 : v.takeWhile Char.isDigit ++ v.dropWhile Char.isDigit = v :=
                List.takeWhile_append_dropWhile _ v
              rw [h4, ← h2, h3]
              exact h1
  · rintro ⟨hb, hslash, hd, hdig, rest, hrest, rfl⟩
    have hslashB : ∀ c ∈ b, (fun c => decide (c ≠ '/')) c = true :=
      fun c hc => decide_eq_true (hslash c hc)
    have hhead : ∀ c, (midLit ++ (d ++ rest)).head? = some c →
        (fun c => decide (c ≠ '/')) c = false := by
      intro c hc
      rw [show (midLit ++ (d ++ rest)).head? = some '/' from rfl] at hc
      cases hc
      rfl
    have h1 : dropLit urlLit (urlLit ++ (b ++ (midLit ++ (d ++ rest)))) =
        some (b ++ (midLit ++ (d ++ rest))) := dropLit_append _ _
    have h2 : (b ++ (midLit ++ (d ++ rest))).takeWhile (fun c => decide (c ≠ '/')) = b :=
      takeWhile_append_eq _ b _ hslashB hhead
    have h3 : (b ++ (midLit ++ (d ++ rest))).dropWhile (fun c => decide (c ≠ '/')) =
        midLit ++ (d ++ rest) := dropWhile_append_eq _ b _ hslashB hhead
    have h4 : dropLit midLit (midLit ++ (d ++ rest)) = some (d ++ rest) :=
      dropLit_append _ _
    have h5 : (d ++ rest).takeWhile Char.isDigit = d :=
      takeWhile_append_eq _ d rest hdig hrest
    simp only [parse_thread_url, h1, h2, h3, h4, h5]
    rw [if_neg hb, if_neg hd]

/-- A URL with a canonical head and trailing junk. -/
def trailingUrl : Str := "https://boards.4chan.org/g/thread/123x".toList

/-- C5 counterexample: `trailingUrl` is not of the canonical form (it ends
in `x`, not a digit), yet `parse_thread_url` accepts it, extracting the
pair embedded in its canonical head — refuting "for every string not
matching that form, parse fails". -/
theorem c5_counterexample :
    parse_thread_url trailingUrl = .ok ("g".toList, "123".toList) ∧
    ¬ IsCanonicalUrl trailingUrl := by
  refine ⟨by rfl, fun h => ?_⟩
  rcases canonical_last_digit trailingUrl h with ⟨c, hc, hdig⟩
  rw [show trailingUrl.getLast? = some 'x' from rfl] at hc
  cases hc
  exact absurd hdig (by decide)

/-! ## C3 -/

/-- Deleting a key yields a sublist of the dict. -/
theorem eraseKey_sublist (k : Str) : ∀ l : List (Str × ThreadRecord),
    List.Sublist (eraseKey k l) l
  | [] => List.Sublist.refl []
  | kv :: rest => by
    rw [eraseKey]
    split
    · exact List.sublist_cons_self kv rest
    · exact List.Sublist.cons₂ kv (eraseKey_sublist k rest)

/-- Deleting any sequence of keys yields a sublist of the dict. -/
theorem foldl_eraseKey_sublist : ∀ (ks : List Str) (l : List (Str × ThreadRecord)),
    List.Sublist (List.foldl (fun ts k => eraseKey k ts) l ks) l
  | [], l => List.Sublist.refl l
  | k :: ks, l => by
    simp only [List.foldl_cons]
    exact (foldl_eraseKey_sublist ks (eraseKey k l)).trans (eraseKey_sublist k l)

/-- `add_thread` either mutates nothing and assigns no id, or assigns
exactly the current `next_id`, appends one record carrying that id, and
increments `next_id`. -/
theorem add_thread_cases (b t : Str) (iv : Nat) (R : Registry) (f : FetchOutcome) (n : Int) :
    ((add_thread b t iv R f n).data = R ∧ (add_thread b t iv R f n).assignedId = none) ∨
    ((add_thread b t iv R f n).assignedId = some R.next_id ∧
      ∃ rec1 : ThreadRecord, rec1.id = R.next_id ∧
        (add_thread b t iv R f n).data =
          ⟨R.threads ++ [(thread_key b t, rec1)], R.next_id + 1⟩) := by
  simp only [add_thread]
  split
  · exact Or.inl ⟨rfl, rfl⟩
  · split
    · exact Or.inl ⟨rfl, rfl⟩
    · exact Or.inl ⟨rfl, rfl⟩
    · exact Or.inr ⟨rfl, ⟨_, rfl, rfl⟩⟩

/-- `remove_thread` never changes `next_id` and only ever deletes
entries. -/
theorem remove_thread_data (i : Nat) (fo co : Bool) (R : Registry) :
    (remove_thread i fo co R).data.next_id = R.next_id ∧
    List.Sublist (remove_thread i fo co R).data.threads R.threads := by
  simp only [remove_thread]
  split
  · exact ⟨rfl, List.Sublist.refl _⟩
  · split
    · exact ⟨rfl, List.Sublist.refl _⟩
    · exact ⟨rfl, eraseKey_sublist _ _⟩

/-- `cleanup_old_threads` never changes `next_id` and only ever deletes
entries. -/
theorem cleanup_data (R : Registry) (n : Int) :
    (cleanup_old_threads R n).data.next_id = R.next_id ∧
    List.Sublist (cleanup_old_threads R n).data.threads R.threads := by
  simp only [cleanup_old_threads]
  split
  · exact ⟨rfl, List.Sublist.refl _⟩
  · exact ⟨rfl, foldl_eraseKey_sublist _ _⟩

/-- One lifecycle operation preserves the allocator invariant and the
distinctness of tracking ids, and never decreases `next_id`. -/
theorem applyOp_preserves (R : Registry) (op : RegOp)
    (hInv : InvReg R) (hnd : (regIds R).Nodup) :
    InvReg (applyOp R op) ∧ (regIds (applyOp R op)).Nodup ∧
    R.next_id ≤ (applyOp R op).next_id := by
  cases op with
  | addOp b t iv f n =>
    rcases add_thread_cases b t iv R f n with ⟨hdata, _⟩ | ⟨_, rec1, hrec, hdata⟩
    · simp only [applyOp, hdata]
      exact ⟨hInv, hnd, Nat.le_refl _⟩
    · simp only [applyOp, hdata]
      refine ⟨?_, ?_, Nat.le_succ _⟩
      · intro kv hkv
        rcases List.mem_append.mp hkv with hkv | hkv
        · exact Nat.lt_succ_of_lt (hInv kv hkv)
        · rcases List.mem_singleton.mp hkv with rfl
          simp only [hrec]
          exact Nat.lt_succ_self R.next_id
      · simp only [regIds, List.map_append, List.map_cons, List.map_nil]
        rw [List.nodup_append]
        refine ⟨hnd, List.nodup_singleton _, ?_⟩
        intro a ha hb
        rcases List.mem_singleton.mp hb with rfl
        rcases List.mem_map.mp ha with ⟨kv, hkv, hid⟩
        have := hInv kv hkv
        rw [hrec] at hid
        omega
  | removeOp i fo co =>
    obtain ⟨hnext, hsub⟩ := remove_thread_data i fo co R
    refine ⟨?_, ?_, ?_⟩
    · intro kv hkv
      have hmem : kv ∈ R.threads := hsub.subset hkv
      show kv.2.id < (remove_thread i fo co R).data.next_id
      rw [hnext]
      exact hInv kv hmem
    · exact hnd.sublist (hsub.map _)
    · show R.next_id ≤ (remove_thread i fo co R).data.next_id
      rw [hnext]
  | expireOp n =>
    obtain ⟨hnext, hsub⟩ := cleanup_data R n
    refine ⟨?_, ?_, ?_⟩
    · intro kv hkv
      have hmem : kv ∈ R.threads := hsub.subset hkv
      show kv.2.id < (cleanup_old_threads R n).data.next_id
      rw [hnext]
      exact hInv kv hmem
    · exact hnd.sublist (hsub.map _)
    · show R.next_id ≤ (cleanup_old_threads R n).data.next_id
      rw [hnext]

/-- Over any operation sequence from a registry with the allocator
invariant and distinct ids: the invariant and distinctness persist,
`next_id` never decreases, and the ids the adds assign are strictly
increasing and at least the starting `next_id`. -/
theorem runOps_invariant : ∀ (ops : List RegOp) (R : Registry),
    InvReg R → (regIds R).Nodup →
    InvReg (runOps R ops) ∧ (regIds (runOps R ops)).Nodup ∧
    R.next_id ≤ (runOps R ops).next_id ∧
    List.Chain' (· < ·) (assignedIds R ops) ∧
    (∀ j ∈ assignedIds R ops, R.next_id ≤ j)
  | [], R, hInv, hnd =>
    ⟨hInv, hnd, Nat.le_refl _, List.chain'_nil, by simp [assignedIds]⟩
  | op :: ops, R, hInv, hnd => by
    obtain ⟨hInv1, hnd1, hmono1⟩ := applyOp_preserves R op hInv hnd
    obtain ⟨hInvN, hndN, hmonoN, hchain, hge⟩ :=
      runOps_invariant ops (applyOp R op) hInv1 hnd1
    have htail : ∀ j ∈ assignedIds (applyOp R op) ops, R.next_id ≤ j :=
      fun j hj => Nat.le_trans hmono1 (hge j hj)
    have hpair : List.Chain' (· < ·) (assignedIds R (op :: ops)) ∧
        ∀ j ∈ assignedIds R (op :: ops), R.next_id ≤ j := by
      cases op with
      | removeOp i fo co => simpa [assignedIds] using ⟨hchain, htail⟩
      | expireOp n => simpa [assignedIds] using ⟨hchain, htail⟩
      | addOp b t iv f n =>
        rcases add_thread_cases b t iv R f n with ⟨hdata, hnone⟩ | ⟨hsome, rec1, hrec, hdata⟩
        · simpa [assignedIds, hnone] using ⟨hchain, htail⟩
        · constructor
          · simp only [assignedIds, hsome, Option.toList_some, List.singleton_append]
            rw [List.chain'_cons']
            refine ⟨?_, hchain⟩
            intro x hx
            have h1 := hge x (List.mem_of_mem_head? hx)
            have h2 : (applyOp R (RegOp.addOp b t iv f n)).next_id = R.next_id + 1 := by
              simp only [applyOp, hdata]
            omega
          · intro j hj
            simp only [assignedIds, hsome, Option.toList_some,
              List.singleton_append] at hj
            rcases List.mem_cons.mp hj with rfl | hj2
            · exact Nat.le_refl _
            · exact htail j hj2
    exact ⟨hInvN, hndN, Nat.le_trans hmono1 hmonoN, hpair.1, hpair.2⟩

/-- C3 (amended): for every sequence of add, remove, and expire operations
starting from a registry where `nextId` exceeds every allocated id AND the
existing tracking ids are pairwise distinct: the invariant and the
distinctness persist (no two records ever carry the same trackingId), ids
assigned by successive adds are strictly increasing, every assigned id is
fresh (never an id already in the start registry), each successful add
assigns exactly the then-current `nextId` and increments it, and removal
never changes `nextId` — so no freed id is ever reassigned. -/
theorem c3_amended (R : Registry) (ops : List RegOp)
    (hInv : InvReg R) (hnd : (regIds R).Nodup) :
    InvReg (runOps R ops) ∧
    (regIds (runOps R ops)).Nodup ∧
    R.next_id ≤ (runOps R ops).next_id ∧
    List.Chain' (· < ·) (assignedIds R ops) ∧
    (∀ j ∈ assignedIds R ops, j ∉ regIds R) ∧
    (∀ (b t : Str) (iv : Nat) (f : FetchOutcome) (n : Int) (j : Nat),
      (add_thread b t iv (runOps R ops) f n).assignedId = some j →
        j = (runOps R ops).next_id ∧
        (add_thread b t iv (runOps R ops) f n).data.next_id = (runOps R ops).next_id + 1) ∧
    (∀ (i : Nat) (fo co : Bool),
      (remove_thread i fo co (runOps R ops)).data.next_id = (runOps R ops).next_id) := by
  obtain ⟨h1, h2, h3, h4, h5⟩ := runOps_invariant ops R hInv hnd
  refine ⟨h1, h2, h3, h4, ?_, ?_, ?_⟩
  · intro j hj hjmem
    rcases List.mem_map.mp hjmem with ⟨kv, hkv, hid⟩
    have hlt := hInv kv hkv
    have hle := h5 j hj
    omega
  · intro b t iv f n j hj
    rcases add_thread_cases b t iv (runOps R ops) f n with
      ⟨_, hnone⟩ | ⟨hsome, rec1, hrec, hdata⟩
    · rw [hnone] at hj
      exact Option.noConfusion hj
    · rw [hsome] at hj
      have hji := Option.some.inj hj
      subst hji
      exact ⟨rfl, by rw [hdata]⟩
  · intro i fo co
    exact (remove_thread_data i fo co (runOps R ops)).1

/-- A second record that duplicates tracking id 1 (a state the allocator
itself never produces). -/
def dupRecord : ThreadRecord := ⟨1, sampleBoard, "2".toList, "t".toList, 5, 0, 120, 0⟩

/-- A registry whose `next_id` exceeds every id, yet two records share
tracking id 1. -/
def dupReg : Registry :=
  ⟨[(sampleKey, sampleRecord), (thread_key sampleBoard ("2".toList), dupRecord)], 2⟩

/-- C3 counterexample: `dupReg` satisfies the claim's hypothesis (`nextId`
exceeds every allocated id), and the empty operation sequence is a sequence
of add/remove/expire operations, yet two records carry the same tracking
id — so the claimed "therefore no two records ever carry the same
trackingId" fails without also assuming the start ids distinct. -/
theorem c3_counterexample :
    InvReg dupReg ∧ runOps dupReg [] = dupReg ∧ regIds dupReg = [1, 1] ∧
    ¬ (regIds dupReg).Nodup := by decide

/-- A concrete operation sequence: add `g_2`, force-remove id 1, add
`g_3`. -/
def opsC : List RegOp :=
  [.addOp ("g".toList) ("2".toList) 120 (.success tdSame) 50,
   .removeOp 1 true true,
   .addOp ("g".toList) ("3".toList) 120 (.success tdSame) 60]

/-- C3 witness: at the sample registry and `opsC`, the hypotheses hold and
the assigned ids are strictly increasing. -/
theorem c3_amended_witness : List.Chain' (· < ·) (assignedIds sampleReg opsC) :=
  (c3_amended sampleReg opsC (by decide) (by decide)).2.2.2.1

end ThreadTracker
